import Mathlib

/-!
Shallow embedding of the monitor-ingest service (Go) for specification checking.

Covered source files:
  structs/event.go        (Event, Validate, DataJSON)
  responder/responder.go  (parseFilterKey, parseQueryParams, buildPaginationURLs)
  services/query.go       (filter compilation, QueryEvents, GetDataValues)
  db/clickhouse.go        (WriteBatch)
  routes ingest handler   (parseAndEnqueue, IngestEventsHandler)

Modelling conventions:
  Go strings are Lean String (whose data field is a List Char); the Go
  standard-library string functions used by the source (strings.Split,
  strings.HasPrefix, strings.TrimPrefix) are re-implemented below on char
  lists with Go semantics. time.Time is modelled as an Int of Unix seconds
  with 0 playing the role of the zero value tested by IsZero. Go slices
  are modelled as Option (List _) where none is the nil slice, so that the
  nil versus empty distinction the code manipulates is visible. External
  collaborators (the JSON decoder, the RFC3339 parser, the ClickHouse
  connection) are passed in as function arguments.
-/

namespace Monitor

/-- Go strings.Split on char lists, written with structural fuel recursion
so the kernel can evaluate it: splits around each non-overlapping
occurrence of the separator, scanning left to right. The fuel case never
fires when the fuel exceeds the input length. Only called with a non-empty
separator, matching every call site in the source. -/
def splitChFuel (sep : List Char) : Nat → List Char → List (List Char)
  | 0, s => [s]
  | _ + 1, [] => [[]]
  | fuel + 1, c :: rest =>
    if sep ≠ [] ∧ sep.isPrefixOf (c :: rest) then
      [] :: splitChFuel sep fuel (rest.drop (sep.length - 1))
    else
      match splitChFuel sep fuel rest with
      | [] => [[c]]
      | p :: ps => (c :: p) :: ps

/-- Go strings.Split on char lists, with enough fuel for the whole input. -/
def splitG (sep s : List Char) : List (List Char) := splitChFuel sep (s.length + 1) s

/-- Go strings.Split lifted to String. -/
def goSplit (s sep : String) : List String := (splitG sep.data s.data).map (fun l => ⟨l⟩)

/-- Go strings.HasPrefix. -/
def goStartsWith (s p : String) : Bool := p.data.isPrefixOf s.data

/-- Go strings.TrimPrefix. -/
def goTrimLeading (s p : String) : String :=
  if goStartsWith s p then ⟨s.data.drop p.data.length⟩ else s

/-- Hex digit test, the character class of the uuidRegex groups. -/
def isHexChar (c : Char) : Bool :=
  (('0' ≤ c ∧ c ≤ '9') ∨ ('a' ≤ c ∧ c ≤ 'f') ∨ ('A' ≤ c ∧ c ≤ 'F') : Prop)

/-- The anchored uuidRegex of structs/event.go: five hyphen-separated groups
of hex digits with lengths 8, 4, 4, 4, 12 (case-insensitive). A string
matches the regex exactly when splitting on the hyphen yields five groups of
those lengths, all hex (hex groups cannot contain a hyphen). -/
def uuidMatch (s : String) : Bool :=
  match goSplit s "-" with
  | [a, b, c, d, e] =>
    a.length = 8 ∧ b.length = 4 ∧ c.length = 4 ∧ d.length = 4 ∧ e.length = 12 ∧
      ((a.data ++ b.data ++ c.data ++ d.data ++ e.data).all isHexChar : Bool)
  | _ => false

/-- The Event record of structs/event.go. The data field (a Go
map from string to interface values) is modelled as an association list
from keys to raw JSON value text, with none standing for the Go nil map.
The user_id field is not declared in the captured structs/event.go, but it
is read by db.WriteBatch, documented in the README event table and added to
the store by migration 002; it is modelled from the spec (event attribute
table of section 3). -/
structure Event where
  timestamp : Int := 0
  service : String := ""
  env : String := ""
  job_id : String := ""
  request_id : String := ""
  trace_id : String := ""
  user_id : String := ""
  name : String := ""
  level : String := ""
  data : Option (List (String × String)) := none
deriving DecidableEq, Repr

/-- Event.Validate of structs/event.go: returns the first failure message,
or none when the event passes. -/
def Event.validate (e : Event) : Option String :=
  if e.timestamp = 0 then some "timestamp is required"
  else if e.service = "" then some "service is required"
  else if e.name = "" then some "name is required"
  else if e.job_id ≠ "" ∧ ¬ uuidMatch e.job_id then some "job_id must be a valid UUID"
  else if e.request_id ≠ "" ∧ ¬ uuidMatch e.request_id then some "request_id must be a valid UUID"
  else if e.trace_id ≠ "" ∧ ¬ uuidMatch e.trace_id then some "trace_id must be a valid UUID"
  else none

/-- Event.DataJSON of structs/event.go: nil data (and, in the source, a
marshal failure) yields the literal empty-object text; otherwise the JSON
text of the map. Map marshalling sorts keys as encoding/json does. -/
def insertSorted (p : String × String) : List (String × String) → List (String × String)
  | [] => [p]
  | q :: rest => if p.1 ≤ q.1 then p :: q :: rest else q :: insertSorted p rest

/-- Key-sorted copy of an association list, as encoding/json orders map keys. -/
def sortByKey (l : List (String × String)) : List (String × String) :=
  l.foldr insertSorted []

/-- JSON text of a data map value (string keys quoted, values already raw
JSON text in the model). -/
def mapJsonText (l : List (String × String)) : String :=
  "\x7b" ++ ",".intercalate ((sortByKey l).map (fun p => "\x22" ++ p.1 ++ "\x22:" ++ p.2)) ++ "\x7d"

/-- Event.DataJSON of structs/event.go. -/
def Event.dataJSON (e : Event) : String :=
  match e.data with
  | none => "\x7b\x7d"
  | some l => mapJsonText l

/-- Go encoding/json marshalling of the data field itself, as it appears in
query responses: a nil map serializes to the JSON null literal, a non-nil
map to an object. -/
def goDataMarshal : Option (List (String × String)) → String
  | none => "null"
  | some l => mapJsonText l

/-- Go interface value carried by a Filter: a single string from the query
string, a comma-split string list (the in operator), or a time bound. -/
inductive Value where
  | str (s : String)
  | strs (l : List String)
  | time (t : Int)
deriving DecidableEq, Repr

/-- Go fmt %v rendering of a filter value, used for LIKE patterns. -/
def fmtV : Value → String
  | .str s => s
  | .strs l => "[" ++ " ".intercalate l ++ "]"
  | .time t => toString t

/-- The Filter triple of services/query.go. Operator is a Go string type;
the named constants are the ten operator strings. -/
structure Filter where
  field : String
  op : String
  value : Value
  isData : Bool
deriving DecidableEq, Repr

/-- QueryParams of services/query.go. From and To are time.Time values
modelled as Int with 0 the zero value. -/
structure QueryParams where
  filters : List Filter := []
  fromT : Int := 0
  toT : Int := 0
  limit : Int := 0
  offset : Int := 0
deriving Repr

/-- Result of parseFilterKey in responder.go. -/
structure ParsedKey where
  field : String
  op : String
  isData : Bool
deriving DecidableEq, Repr

/-- The validOperators map of responder.go (suffix strings). -/
def validOperatorNames : List String :=
  ["eq", "neq", "lt", "gt", "lte", "gte", "contains", "startswith", "endswith", "in"]

/-- The reservedParams set of responder.go: query keys that are never filters. -/
def reservedParams (k : String) : Bool :=
  k ∈ ["from", "to", "limit", "offset", "key"]

/-- parseFilterKey of responder.go: strip a leading data. marker, split on
the double underscore, and read a trailing operator name. -/
def parseFilterKey (key : String) : ParsedKey :=
  let isData := goStartsWith key "data."
  let key1 := if isData then goTrimLeading key "data." else key
  let parts := goSplit key1 "__"
  if parts.length = 1 then ⟨parts.headD "", "eq", isData⟩
  else
    let fld := parts.headD ""
    let opStr := parts.getLastD ""
    if validOperatorNames.contains opStr then ⟨fld, opStr, isData⟩
    else ⟨key1, "eq", isData⟩

/-- Go strconv.Atoi: optional sign followed by at least one digit
(int-range overflow, which Atoi also rejects, is not modelled; no claim
depends on it). -/
def goAtoi (s : String) : Option Int :=
  match s.data with
  | [] => none
  | '-' :: rest =>
    if rest ≠ [] ∧ rest.all Char.isDigit then some (-(String.toNat! ⟨rest⟩ : Int)) else none
  | '+' :: rest =>
    if rest ≠ [] ∧ rest.all Char.isDigit then some ((String.toNat! ⟨rest⟩ : Int)) else none
  | l =>
    if l.all Char.isDigit then some ((String.toNat! ⟨l⟩ : Int)) else none

/-- Time-string parsing of parseQueryParams: try RFC3339 (the external
time.Parse, supplied as the oracle argument), then fall back to
strconv.ParseInt Unix seconds; when both fail the zero time remains. -/
def parseTimeParam (rfc : String → Option Int) (s : String) : Int :=
  match rfc s with
  | some t => t
  | none =>
    match goAtoi s with
    | some u => u
    | none => 0

/-- Go url.Values.Get: first value of the key, or the empty string. -/
def valuesGet (q : List (String × List String)) (k : String) : String :=
  match q.find? (fun p => p.1 = k) with
  | some (_, v :: _) => v
  | _ => ""

/-- The filter built from one non-reserved query pair in parseQueryParams:
comma-splitting the first value for the in operator, otherwise taking it
whole. -/
def mkFilter (k : String) (vs : List String) : Filter :=
  let pk := parseFilterKey k
  let value := if pk.op = "in" then Value.strs (goSplit (vs.headD "") ",") else Value.str (vs.headD "")
  ⟨pk.field, pk.op, value, pk.isData⟩

/-- parseQueryParams of responder.go. The source iterates the url.Values
map in unspecified order; the model fixes the given association-list order
(no claim depends on filter order). The error return of the source is
always nil, modelled by the second component being none. -/
def parseQueryParams (rfc : String → Option Int) (q : List (String × List String)) :
    QueryParams × Option String :=
  let fromT := if valuesGet q "from" ≠ "" then parseTimeParam rfc (valuesGet q "from") else 0
  let toT := if valuesGet q "to" ≠ "" then parseTimeParam rfc (valuesGet q "to") else 0
  let lim := if valuesGet q "limit" ≠ "" then (goAtoi (valuesGet q "limit")).getD 0 else 0
  let off := if valuesGet q "offset" ≠ "" then (goAtoi (valuesGet q "offset")).getD 0 else 0
  let filters := q.filterMap (fun p =>
    if reservedParams p.1 ∨ p.2.length = 0 then none else some (mkFilter p.1 p.2))
  ({ filters := filters, fromT := fromT, toT := toT, limit := lim, offset := off }, none)

/-- Model of a squirrel SelectBuilder: the parts the source sets. ToSql
emits them in squirrel order: columns, FROM, WHERE, ORDER BY, LIMIT,
OFFSET, then Suffix parts at the very end. -/
structure SelectBuilder where
  columns : List String
  table : String
  wheres : List (String × List Value) := []
  orderBys : List String := []
  limitN : Option Nat := none
  offsetN : Option Nat := none
  suffixes : List String := []
deriving DecidableEq, Repr

/-- squirrel Where with a raw condition and bound arguments. -/
def SelectBuilder.whereRaw (b : SelectBuilder) (sql : String) (args : List Value) : SelectBuilder :=
  { b with wheres := b.wheres ++ [(sql, args)] }

/-- squirrel ToSql. -/
def SelectBuilder.toSql (b : SelectBuilder) : String × List Value :=
  let sql := "SELECT " ++ ", ".intercalate b.columns
    ++ " FROM " ++ b.table
    ++ (if b.wheres.isEmpty then "" else " WHERE " ++ " AND ".intercalate (b.wheres.map Prod.fst))
    ++ (if b.orderBys.isEmpty then "" else " ORDER BY " ++ ", ".intercalate b.orderBys)
    ++ (match b.limitN with | some n => " LIMIT " ++ toString n | none => "")
    ++ (match b.offsetN with | some n => " OFFSET " ++ toString n | none => "")
    ++ (if b.suffixes.isEmpty then "" else " " ++ " ".intercalate b.suffixes)
  (sql, (b.wheres.map Prod.snd).flatten)

/-- squirrel sq.Eq rendering: a scalar binds one placeholder; a string
slice renders an IN list (the empty slice renders a false constant). -/
def sqlEq (f : String) (v : Value) : String × List Value :=
  match v with
  | .strs [] => ("(1=0)", [])
  | .strs vs => (f ++ " IN (" ++ ",".intercalate (vs.map (fun _ => "?")) ++ ")", vs.map Value.str)
  | v => (f ++ " = ?", [v])

/-- squirrel sq.NotEq rendering. -/
def sqlNeq (f : String) (v : Value) : String × List Value :=
  match v with
  | .strs [] => ("(1=1)", [])
  | .strs vs => (f ++ " NOT IN (" ++ ",".intercalate (vs.map (fun _ => "?")) ++ ")", vs.map Value.str)
  | v => (f ++ " <> ?", [v])

/-- The validColumns allow-list of services/query.go. -/
def validColumns (f : String) : Bool :=
  f ∈ ["service", "env", "job_id", "request_id", "trace_id", "user_id", "name", "level"]

/-- applyColumnFilter of services/query.go: fields outside the allow-list
are skipped; otherwise the operator switch appends one parameterized
condition (comparison operators on non-scalar values, which the parser
never produces, are modelled as the scalar bind). -/
def applyColumnFilter (b : SelectBuilder) (f : Filter) : SelectBuilder :=
  if validColumns f.field = false then b
  else if f.op = "eq" ∨ f.op = "" then
    let p := sqlEq f.field f.value
    b.whereRaw p.1 p.2
  else if f.op = "neq" then
    let p := sqlNeq f.field f.value
    b.whereRaw p.1 p.2
  else if f.op = "lt" then b.whereRaw (f.field ++ " < ?") [f.value]
  else if f.op = "gt" then b.whereRaw (f.field ++ " > ?") [f.value]
  else if f.op = "lte" then b.whereRaw (f.field ++ " <= ?") [f.value]
  else if f.op = "gte" then b.whereRaw (f.field ++ " >= ?") [f.value]
  else if f.op = "contains" then
    b.whereRaw (f.field ++ " LIKE ?") [.str ("%" ++ fmtV f.value ++ "%")]
  else if f.op = "startswith" then
    b.whereRaw (f.field ++ " LIKE ?") [.str (fmtV f.value ++ "%")]
  else if f.op = "endswith" then
    b.whereRaw (f.field ++ " LIKE ?") [.str ("%" ++ fmtV f.value)]
  else if f.op = "in" then
    match f.value with
    | .strs vs =>
      let p := sqlEq f.field (.strs vs)
      b.whereRaw p.1 p.2
    | _ => b
  else b

/-- applyDataFilter of services/query.go: the JSON key is embedded
textually inside the JSONExtractString call; the compared value is bound.
The in operator (and any unknown operator) falls through unchanged. -/
def applyDataFilter (b : SelectBuilder) (f : Filter) : SelectBuilder :=
  let extract := "JSONExtractString(data, \x27" ++ f.field ++ "\x27)"
  if f.op = "eq" ∨ f.op = "" then b.whereRaw (extract ++ " = ?") [f.value]
  else if f.op = "neq" then b.whereRaw (extract ++ " != ?") [f.value]
  else if f.op = "lt" then b.whereRaw (extract ++ " < ?") [f.value]
  else if f.op = "gt" then b.whereRaw (extract ++ " > ?") [f.value]
  else if f.op = "lte" then b.whereRaw (extract ++ " <= ?") [f.value]
  else if f.op = "gte" then b.whereRaw (extract ++ " >= ?") [f.value]
  else if f.op = "contains" then
    b.whereRaw (extract ++ " LIKE ?") [.str ("%" ++ fmtV f.value ++ "%")]
  else if f.op = "startswith" then
    b.whereRaw (extract ++ " LIKE ?") [.str (fmtV f.value ++ "%")]
  else if f.op = "endswith" then
    b.whereRaw (extract ++ " LIKE ?") [.str ("%" ++ fmtV f.value)]
  else b

/-- The loop body of applyFilters: data filters go to applyDataFilter,
column filters to applyColumnFilter. -/
def filterStep (b : SelectBuilder) (f : Filter) : SelectBuilder :=
  if f.isData then applyDataFilter b f else applyColumnFilter b f

/-- applyFilters of services/query.go: fold the filters, then the time
bounds. -/
def applyFilters (b : SelectBuilder) (p : QueryParams) : SelectBuilder :=
  let b1 := p.filters.foldl filterStep b
  let b2 := if p.fromT ≠ 0 then b1.whereRaw "timestamp >= ?" [.time p.fromT] else b1
  if p.toT ≠ 0 then b2.whereRaw "timestamp <= ?" [.time p.toT] else b2

/-- Go uint64 conversion of an int, as applied to Limit and Offset. -/
def uint64OfInt (i : Int) : Nat := (i % (2 : Int) ^ 64).toNat

/-- The two Limit-clamping statements at the head of QueryEvents. -/
def queryEventsLimit (l : Int) : Int :=
  if l ≤ 0 then 100 else if l > 1000 then 1000 else l

/-- eventsTable of services/query.go. -/
def eventsTable (db : String) : String := db ++ ".events"

/-- The count query built by QueryEvents. -/
def queryEventsCountBuilder (db : String) (p : QueryParams) : SelectBuilder :=
  applyFilters { columns := ["count()"], table := eventsTable db } p

/-- The data query built by QueryEvents, after the Limit clamp: row columns,
ORDER BY timestamp DESC, LIMIT and OFFSET through the uint64 conversion. -/
def queryEventsDataBuilder (db : String) (p : QueryParams) : SelectBuilder :=
  let lim := queryEventsLimit p.limit
  applyFilters
    { columns := ["timestamp", "service", "env", "job_id", "request_id", "trace_id", "name",
        "level", "data"],
      table := eventsTable db,
      orderBys := ["timestamp DESC"],
      limitN := some (uint64OfInt lim),
      offsetN := some (uint64OfInt p.offset) } p

/-- A scanned row of the events data query, in the column order of the
Scan call (user_id is not selected). -/
structure Row where
  timestamp : Int := 0
  service : String := ""
  env : String := ""
  job_id : String := ""
  request_id : String := ""
  trace_id : String := ""
  name : String := ""
  level : String := ""
  dataStr : String := ""
deriving DecidableEq, Repr

/-- The per-row rehydration of QueryEvents: the data column is JSON-parsed
only when it is neither empty nor the literal empty-object text; otherwise
(and on a parse failure, whose error the source ignores) the event keeps
the nil map. The JSON decoder is the oracle argument. -/
def rowToEvent (parseJson : String → Option (List (String × String))) (r : Row) : Event :=
  { timestamp := r.timestamp, service := r.service, env := r.env, job_id := r.job_id,
    request_id := r.request_id, trace_id := r.trace_id, name := r.name, level := r.level,
    data := if r.dataStr ≠ "" ∧ r.dataStr ≠ "\x7b\x7d" then parseJson r.dataStr else none }

/-- Go append on a possibly-nil slice: appending to nil allocates. -/
def goAppend (l : Option (List α)) (a : α) : Option (List α) :=
  some (l.getD [] ++ [a])

/-- The scan loop of QueryEvents: events starts as the nil slice and each
row is appended. -/
def scanEvents (parseJson : String → Option (List (String × String))) (rows : List Row) :
    Option (List Event) :=
  rows.foldl (fun acc r => goAppend acc (rowToEvent parseJson r)) none

/-- The nil-slice guard at the end of QueryEvents: a nil events slice is
replaced by the empty slice before it is returned. -/
def queryEventsEvents (parseJson : String → Option (List (String × String)))
    (rows : List Row) : Option (List Event) :=
  match scanEvents parseJson rows with
  | none => some []
  | s => s

/-- GetDataValues of services/query.go, up to execution: reject an empty
key, build the DISTINCT JSONExtractString query with a HAVING text added
through squirrel Suffix, compile to SQL, then prepend the key to the bound
arguments. -/
def getDataValuesBuild (db : String) (key : String) (p : QueryParams) :
    Except String (String × List Value) :=
  if key = "" then .error "key is required"
  else
    let b := applyFilters
      { columns := ["DISTINCT JSONExtractString(data, ?) AS value"],
        table := eventsTable db,
        orderBys := ["value"],
        limitN := some 1000 } p
    let b := { b with suffixes := b.suffixes ++ ["HAVING value != \x27\x27"] }
    let r := b.toSql
    .ok (r.1, Value.str key :: r.2)

/-- Outcome of decoding one NDJSON line with json.Unmarshal. -/
inductive ParseResult where
  | err
  | ok (e : Event)

/-- The scan loop of parseAndEnqueue in the ingest route: 1-based line
counting over all lines, empty lines skipped, stop at the first decode or
validation failure returning its line number, otherwise enqueue and count.
The returned event list is the sequence of Queue.Enqueue calls made. -/
def parseAndEnqueueAux (parse : String → ParseResult) :
    List String → Nat → List Event → Nat → List Event × Nat × Option Nat
  | [], _, enq, count => (enq, count, none)
  | l :: rest, lineNum, enq, count =>
    let n := lineNum + 1
    if l = "" then parseAndEnqueueAux parse rest n enq count
    else
      match parse l with
      | .err => (enq, count, some n)
      | .ok e =>
        match e.validate with
        | some _ => (enq, count, some n)
        | none => parseAndEnqueueAux parse rest n (enq ++ [e]) (count + 1)

/-- parseAndEnqueue of the ingest route (scanner errors past the last line,
such as an over-long line, are outside the line model). -/
def parseAndEnqueue (parse : String → ParseResult) (lines : List String) :
    List Event × Nat × Option Nat :=
  parseAndEnqueueAux parse lines 0 [] 0

/-- The HTTP outcome of IngestEventsHandler. -/
inductive IngestResp where
  | accepted (n : Nat)
  | badLine (lineNum : Nat)
deriving DecidableEq, Repr

/-- IngestEventsHandler, after body wrapping: a parse failure yields a 400
naming the failing line, success yields 200 with the accepted count. The
second component is the sequence of Queue.Enqueue calls made. -/
def ingestEventsHandler (parse : String → ParseResult) (lines : List String) :
    IngestResp × List Event :=
  match parseAndEnqueue parse lines with
  | (enq, count, none) => (.accepted count, enq)
  | (enq, _, some n) => (.badLine n, enq)

/-- One interaction with the ClickHouse batch interface. -/
inductive StoreOp where
  | prepare (sql : String)
  | append (e : Event)
  | send
deriving DecidableEq, Repr

/-- Abstract ClickHouse batch behaviour: whether PrepareBatch succeeds,
which appends fail, and whether Send succeeds. -/
structure Store where
  prepareOk : Bool
  appendOk : Event → Bool
  sendOk : Bool

/-- The INSERT statement text prepared by WriteBatch. -/
def insertSQL (db : String) : String :=
  "INSERT INTO " ++ db ++
    ".events (timestamp, service, env, job_id, request_id, trace_id, user_id, name, level, data)"

/-- The append loop of WriteBatch: append each event in order, stopping at
the first failure. Returns the error and the trace of append operations. -/
def writeBatchAppends (st : Store) : List Event → Except String Unit × List StoreOp
  | [] => (.ok (), [])
  | e :: rest =>
    if st.appendOk e then
      let r := writeBatchAppends st rest
      (r.1, .append e :: r.2)
    else (.error "failed to append event to batch", [.append e])

/-- WriteBatch of db/clickhouse.go: an empty batch returns nil immediately;
otherwise prepare, append each event, send. The second component is the
trace of store interactions. -/
def writeBatch (st : Store) (db : String) (events : List Event) :
    Except String Unit × List StoreOp :=
  if events.length = 0 then (.ok (), [])
  else if ¬ st.prepareOk then (.error "failed to prepare batch", [.prepare (insertSQL db)])
  else
    let r := writeBatchAppends st events
    match r.1 with
    | .error m => (.error m, .prepare (insertSQL db) :: r.2)
    | .ok () =>
      if st.sendOk then (.ok (), .prepare (insertSQL db) :: r.2 ++ [.send])
      else (.error "failed to send batch", .prepare (insertSQL db) :: r.2 ++ [.send])

/-- Go url.Values modelled as a map from key to its value list. -/
def QVals := String → List String

/-- Go url.Values.Set: replace the key with a single value. -/
def qset (q : QVals) (k v : String) : QVals :=
  fun k2 => if k2 = k then [v] else q k2

/-- buildPaginationURLs of the query routes: the URL strings are abstracted
to the query maps they encode (presence of a link and its parameters are
what the spec speaks about). The source mutates one shared url.Values; the
model threads it in the same order. -/
def buildPaginationURLs (q : QVals) (limit offset : Int) (total : Int) :
    Option QVals × Option QVals :=
  let lim := if limit ≤ 0 then 100 else limit
  let nextOffset := offset + lim
  let q1 := if nextOffset < total then qset (qset q "offset" (toString nextOffset)) "limit" (toString lim) else q
  let nextQ := if nextOffset < total then some q1 else none
  let prevOffset := if offset - lim < 0 then 0 else offset - lim
  let q2 := if offset > 0 then qset (qset q1 "offset" (toString prevOffset)) "limit" (toString lim) else q1
  let prevQ := if offset > 0 then some q2 else none
  (nextQ, prevQ)

/-- Modelled from the spec: the section 4.6 character-class whitelist for
JSON keys embedded in SQL; this gate is absent from the source. -/
def specKeyCharOk (c : Char) : Bool :=
  (('A' ≤ c ∧ c ≤ 'Z') ∨ ('a' ≤ c ∧ c ≤ 'z') ∨ ('0' ≤ c ∧ c ≤ '9') ∨
    c = '_' ∨ c = '.' ∨ c = '-' : Prop)

/-- Modelled from the spec: a data-filter key passes the whitelist when
every character is in the class. -/
def specKeySafe (k : String) : Bool := k.data.all specKeyCharOk

/-- Modelled from the spec: the filter-key grammar of section 4.6 read
literally, for comparison with parseFilterKey. Strip an optional data.
marker; when the key ends in a double underscore followed by a known
operator name, that suffix selects the operator and the field is
everything before it; otherwise the operator is eq and the whole key is
the field. -/
def specSuffixSplit (k : String) : Option (String × String) :=
  (validOperatorNames.filterMap (fun op =>
    let suf := "__" ++ op
    if suf.data.isSuffixOf k.data then
      some (⟨k.data.take (k.data.length - suf.data.length)⟩, op)
    else none)).head?

/-- Modelled from the spec: full grammar parse of a filter key. -/
def parseFilterKeySpec (key : String) : ParsedKey :=
  let isData := goStartsWith key "data."
  let key1 := if isData then goTrimLeading key "data." else key
  match specSuffixSplit key1 with
  | some (fld, op) => ⟨fld, op, isData⟩
  | none => ⟨key1, "eq", isData⟩

/-- Fuel irrelevance of splitChFuel: any two fuels above the input length
agree. -/
theorem splitChFuel_congr (sep : List Char) :
    ∀ (fuel fuel2 : Nat) (s : List Char), s.length < fuel → s.length < fuel2 →
      splitChFuel sep fuel s = splitChFuel sep fuel2 s := by
  intro fuel
  induction fuel with
  | zero => intro fuel2 s h1 _; omega
  | succ f ih =>
    intro fuel2 s h1 h2
    match fuel2, s with
    | 0, s => omega
    | f2 + 1, [] => rfl
    | f2 + 1, c :: rest =>
      simp only [splitChFuel]
      by_cases hc : sep ≠ [] ∧ sep.isPrefixOf (c :: rest)
      · rw [if_pos hc, if_pos hc,
          ih f2 (rest.drop (sep.length - 1)) (by simp at h1 ⊢; omega) (by simp at h2 ⊢; omega)]
      · rw [if_neg hc, if_neg hc,
          ih f2 rest (by simp at h1 ⊢; omega) (by simp at h2 ⊢; omega)]

/-- When the separator never occurs in the input, splitting returns the
whole input. -/
theorem splitChFuel_no_sep (sep : List Char) :
    ∀ (fuel : Nat) (s : List Char), s.length < fuel → ¬ sep <:+: s →
      splitChFuel sep fuel s = [s] := by
  intro fuel
  induction fuel with
  | zero => intro s h1 _; omega
  | succ f ih =>
    intro s h1 h
    match s with
    | [] => rfl
    | c :: rest =>
      have hc : ¬ (sep ≠ [] ∧ sep.isPrefixOf (c :: rest)) := by
        rintro ⟨-, hp⟩
        exact h (List.isPrefixOf_iff_prefix.mp hp).isInfix
      simp only [splitChFuel, if_neg hc]
      rw [ih rest (by simp at h1 ⊢; omega) (fun hi => h (List.infix_cons hi))]

/-- splitG on an input without the separator. -/
theorem splitG_no_sep (sep s : List Char) (h : ¬ sep <:+: s) : splitG sep s = [s] :=
  splitChFuel_no_sep sep (s.length + 1) s (by omega) h

/-- Splitting on the double underscore peels off a leading segment that
neither contains the separator nor ends in an underscore. -/
theorem splitChFuel_uu_append :
    ∀ (a : List Char) (fuel : Nat) (b : List Char),
      a.length + b.length + 2 < fuel →
      ¬ ('_' :: '_' :: []) <:+: a → a.getLast? ≠ some '_' →
      splitChFuel ['_', '_'] fuel (a ++ '_' :: '_' :: b) = a :: splitG ['_', '_'] b := by
  intro a
  induction a with
  | nil =>
    intro fuel b hf _ _
    match fuel with
    | 0 => omega
    | f + 1 =>
      have hc : (['_', '_'] : List Char) ≠ [] ∧
          (['_', '_'] : List Char).isPrefixOf ([] ++ '_' :: '_' :: b) := by
        simp [List.isPrefixOf]
      simp only [List.nil_append] at hc ⊢
      simp only [splitChFuel, if_pos hc]
      have : (('_' :: b).drop ((['_', '_'] : List Char).length - 1)) = b := by simp
      rw [this, splitChFuel_congr ['_', '_'] f (b.length + 1) b (by simp at hf; omega) (by omega)]
      rfl
  | cons c a2 ih =>
    intro fuel b hf h1 h2
    match fuel with
    | 0 => omega
    | f + 1 =>
      have h1b : ¬ ('_' :: '_' :: []) <:+: a2 := fun hi => h1 (List.infix_cons hi)
      have h2b : a2.getLast? ≠ some '_' := by
        match a2 with
        | [] => simp
        | d :: a3 => rwa [List.getLast?_cons_cons] at h2
      have hc : ¬ ((['_', '_'] : List Char) ≠ [] ∧
          (['_', '_'] : List Char).isPrefixOf (c :: (a2 ++ '_' :: '_' :: b))) := by
        rintro ⟨-, hp⟩
        match a2 with
        | [] =>
          simp only [List.nil_append, List.isPrefixOf, Bool.and_eq_true, beq_iff_eq] at hp
          exact h2 (by rw [← hp.1]; rfl)
        | d :: a3 =>
          simp only [List.cons_append, List.isPrefixOf, Bool.and_eq_true, beq_iff_eq] at hp
          obtain ⟨hpc, hpd, -⟩ := hp
          exact h1 (List.IsPrefix.isInfix ⟨a3, by rw [← hpc, ← hpd]; rfl⟩)
      simp only [List.cons_append, splitChFuel, List.append_eq, if_neg hc]
      rw [ih f b (by simp at hf ⊢; omega) h1b h2b]

/-- goSplit on a key without a double underscore. -/
theorem goSplit_no_uu (s : String) (h : ¬ ('_' :: '_' :: []) <:+: s.data) :
    goSplit s "__" = [s] := by
  unfold goSplit
  rw [show ("__" : String).data = ['_', '_'] from rfl, splitG_no_sep _ _ h]
  rfl

/-- goSplit peels a clean leading segment off a double-underscore key. -/
theorem goSplit_uu (f r : String) (h1 : ¬ ('_' :: '_' :: []) <:+: f.data)
    (h2 : f.data.getLast? ≠ some '_') :
    goSplit (f ++ "__" ++ r) "__" = f :: goSplit r "__" := by
  unfold goSplit splitG
  rw [show ("__" : String).data = ['_', '_'] from rfl]
  have hd : (f ++ "__" ++ r).data = f.data ++ '_' :: '_' :: r.data := by
    show (f.data ++ ('_' :: '_' :: [])) ++ r.data = f.data ++ '_' :: '_' :: r.data
    rw [List.append_assoc]
    rfl
  rw [hd, splitChFuel_uu_append f.data _ r.data (by simp [List.length_append]; omega) h1 h2]
  rfl

/-- Go HasPrefix holds on a literal append. -/
theorem goStartsWith_append_self (p r : String) : goStartsWith (p ++ r) p = true := by
  unfold goStartsWith
  exact List.isPrefixOf_iff_prefix.mpr ⟨r.data, rfl⟩

/-- Go TrimPrefix removes a literal append prefix. -/
theorem goTrimLeading_append_self (p r : String) : goTrimLeading (p ++ r) p = r := by
  unfold goTrimLeading
  rw [if_pos (goStartsWith_append_self p r)]
  show String.mk ((p.data ++ r.data).drop p.data.length) = r
  rw [List.drop_left]

/-- A blank builder used only to read off the conditions one filter
contributes. -/
def emptyB : SelectBuilder := { columns := [], table := "" }

/-- Conditions contributed by a column filter. -/
def colWheres (f : Filter) : List (String × List Value) := (applyColumnFilter emptyB f).wheres

/-- Conditions contributed by a data filter. -/
def dataWheres (f : Filter) : List (String × List Value) := (applyDataFilter emptyB f).wheres

/-- Conditions contributed by one filter through the applyFilters loop. -/
def filterWheres (f : Filter) : List (String × List Value) :=
  if f.isData then dataWheres f else colWheres f

/-- applyColumnFilter only appends conditions. -/
theorem applyColumnFilter_split (b : SelectBuilder) (f : Filter) :
    applyColumnFilter b f = { b with wheres := b.wheres ++ colWheres f } := by
  unfold colWheres applyColumnFilter emptyB SelectBuilder.whereRaw
  by_cases h00 : validColumns f.field = false
  · rw [if_pos h00, if_pos h00]; simp
  · rw [if_neg h00, if_neg h00]
    by_cases h0 : f.op = "eq" ∨ f.op = ""
    · rw [if_pos h0, if_pos h0]; simp
    · rw [if_neg h0, if_neg h0]
      by_cases h1 : f.op = "neq"
      · rw [if_pos h1, if_pos h1]; simp
      · rw [if_neg h1, if_neg h1]
        by_cases h2 : f.op = "lt"
        · rw [if_pos h2, if_pos h2]; simp
        · rw [if_neg h2, if_neg h2]
          by_cases h3 : f.op = "gt"
          · rw [if_pos h3, if_pos h3]; simp
          · rw [if_neg h3, if_neg h3]
            by_cases h4 : f.op = "lte"
            · rw [if_pos h4, if_pos h4]; simp
            · rw [if_neg h4, if_neg h4]
              by_cases h5 : f.op = "gte"
              · rw [if_pos h5, if_pos h5]; simp
              · rw [if_neg h5, if_neg h5]
                by_cases h6 : f.op = "contains"
                · rw [if_pos h6, if_pos h6]; simp
                · rw [if_neg h6, if_neg h6]
                  by_cases h7 : f.op = "startswith"
                  · rw [if_pos h7, if_pos h7]; simp
                  · rw [if_neg h7, if_neg h7]
                    by_cases h8 : f.op = "endswith"
                    · rw [if_pos h8, if_pos h8]; simp
                    · rw [if_neg h8, if_neg h8]
                      by_cases h9 : f.op = "in"
                      · rw [if_pos h9, if_pos h9]
                        cases f.value <;> simp
                      · rw [if_neg h9, if_neg h9]; simp

/-- applyDataFilter only appends conditions. -/
theorem applyDataFilter_split (b : SelectBuilder) (f : Filter) :
    applyDataFilter b f = { b with wheres := b.wheres ++ dataWheres f } := by
  unfold dataWheres applyDataFilter emptyB SelectBuilder.whereRaw
  by_cases h0 : f.op = "eq" ∨ f.op = ""
  · rw [if_pos h0, if_pos h0]; simp
  · rw [if_neg h0, if_neg h0]
    by_cases h1 : f.op = "neq"
    · rw [if_pos h1, if_pos h1]; simp
    · rw [if_neg h1, if_neg h1]
      by_cases h2 : f.op = "lt"
      · rw [if_pos h2, if_pos h2]; simp
      · rw [if_neg h2, if_neg h2]
        by_cases h3 : f.op = "gt"
        · rw [if_pos h3, if_pos h3]; simp
        · rw [if_neg h3, if_neg h3]
          by_cases h4 : f.op = "lte"
          · rw [if_pos h4, if_pos h4]; simp
          · rw [if_neg h4, if_neg h4]
            by_cases h5 : f.op = "gte"
            · rw [if_pos h5, if_pos h5]; simp
            · rw [if_neg h5, if_neg h5]
              by_cases h6 : f.op = "contains"
              · rw [if_pos h6, if_pos h6]; simp
              · rw [if_neg h6, if_neg h6]
                by_cases h7 : f.op = "startswith"
                · rw [if_pos h7, if_pos h7]; simp
                · rw [if_neg h7, if_neg h7]
                  by_cases h8 : f.op = "endswith"
                  · rw [if_pos h8, if_pos h8]; simp
                  · rw [if_neg h8, if_neg h8]
                    simp

/-- The filter loop body only appends conditions. -/
theorem filterStep_split (b : SelectBuilder) (f : Filter) :
    filterStep b f = { b with wheres := b.wheres ++ filterWheres f } := by
  unfold filterStep filterWheres
  by_cases h : f.isData
  · simp only [h, if_true, applyDataFilter_split]
  · simp only [h, if_false, applyColumnFilter_split]
    simp [h]

/-- Folding the filter loop appends the concatenation of the per-filter
conditions. -/
theorem foldl_filterStep (l : List Filter) :
    ∀ b : SelectBuilder, l.foldl filterStep b
      = { b with wheres := b.wheres ++ (l.map filterWheres).flatten } := by
  induction l with
  | nil => intro b; simp
  | cons f l2 ih =>
    intro b
    rw [List.foldl_cons, filterStep_split, ih]
    simp [List.append_assoc]

/-- All conditions contributed by applyFilters for a parameter set. -/
def paramsWheres (p : QueryParams) : List (String × List Value) :=
  (p.filters.map filterWheres).flatten
    ++ (if p.fromT ≠ 0 then [("timestamp >= ?", [Value.time p.fromT])] else [])
    ++ (if p.toT ≠ 0 then [("timestamp <= ?", [Value.time p.toT])] else [])

/-- applyFilters only appends conditions, and appends exactly
paramsWheres. -/
theorem applyFilters_split (b : SelectBuilder) (p : QueryParams) :
    applyFilters b p = { b with wheres := b.wheres ++ paramsWheres p } := by
  unfold applyFilters paramsWheres
  rw [foldl_filterStep]
  by_cases h1 : p.fromT ≠ 0 <;> by_cases h2 : p.toT ≠ 0 <;>
    simp [h1, h2, SelectBuilder.whereRaw, List.append_assoc]

/-- The WHERE clause text applyFilters contributes to a compiled query. -/
def whereSql (p : QueryParams) : String :=
  if (paramsWheres p).isEmpty then ""
  else " WHERE " ++ " AND ".intercalate ((paramsWheres p).map Prod.fst)

/-- The bound arguments applyFilters contributes to a compiled query. -/
def whereArgs (p : QueryParams) : List Value :=
  ((paramsWheres p).map Prod.snd).flatten

/-- Modelled from the spec: the validation predicate the claim states,
including the user_id check of the section 3 invariant. -/
def validateSpecOk (e : Event) : Bool :=
  (e.timestamp ≠ 0 ∧ e.service ≠ "" ∧ e.name ≠ ""
    ∧ (e.job_id = "" ∨ uuidMatch e.job_id = true)
    ∧ (e.request_id = "" ∨ uuidMatch e.request_id = true)
    ∧ (e.trace_id = "" ∨ uuidMatch e.trace_id = true)
    ∧ (e.user_id = "" ∨ uuidMatch e.user_id = true) : Prop)

/-- C1: evaluation of the compiled pipeline at a hostile data-filter key.
The key contains characters outside the section 4.6 whitelist, yet
parseQueryParams reports no error and the count query of QueryEvents embeds
the key textually inside the JSONExtractString call, breaking out of the
string literal. The whitelist the spec mandates is absent from the code. -/
theorem C1_injection_unchecked :
    specKeySafe "k\x27);--" = false
    ∧ (parseQueryParams (fun _ => none) [("data.k\x27);--", ["v"])]).2 = none
    ∧ (parseQueryParams (fun _ => none) [("data.k\x27);--", ["v"])]).1.filters
        = [⟨"k\x27);--", "eq", Value.str "v", true⟩]
    ∧ (queryEventsCountBuilder "monitor"
          (parseQueryParams (fun _ => none) [("data.k\x27);--", ["v"])]).1).toSql
        = ("SELECT count() FROM monitor.events WHERE JSONExtractString(data, \x27k\x27);--\x27) = ?",
            [Value.str "v"]) := by
  decide

/-- C4: a filter that is not a data filter and whose field is outside the
column allow-list leaves the query builder, its compiled SQL and its bound
arguments unchanged, and raises no error. -/
theorem C4_unknown_field_skipped (b : SelectBuilder) (f : Filter)
    (hdata : f.isData = false) (hcol : validColumns f.field = false) :
    filterStep b f = b ∧ (filterStep b f).toSql = b.toSql := by
  have h1 : filterStep b f = b := by
    simp only [filterStep, hdata, Bool.false_eq_true, if_false]
    simp [applyColumnFilter, hcol]
  exact ⟨h1, by rw [h1]⟩

/-- Witness for C4 at a concrete builder and filter. -/
theorem C4_unknown_field_skipped_witness :
    filterStep { columns := ["count()"], table := "monitor.events" }
        ⟨"bogus", "eq", Value.str "x", false⟩
      = { columns := ["count()"], table := "monitor.events" } :=
  (C4_unknown_field_skipped { columns := ["count()"], table := "monitor.events" }
    ⟨"bogus", "eq", Value.str "x", false⟩ rfl (by decide)).1

/-- C7: the LIMIT emitted by the events data query is the requested limit
clamped into the interval from 1 to 1000, with non-positive requests
becoming 100 and requests above 1000 becoming 1000. -/
theorem C7_limit_clamped (db : String) (p : QueryParams) :
    (queryEventsDataBuilder db p).limitN = some (uint64OfInt (queryEventsLimit p.limit))
    ∧ (p.limit ≤ 0 → queryEventsLimit p.limit = 100)
    ∧ (p.limit > 1000 → queryEventsLimit p.limit = 1000)
    ∧ (0 < p.limit → p.limit ≤ 1000 → queryEventsLimit p.limit = p.limit)
    ∧ 1 ≤ queryEventsLimit p.limit ∧ queryEventsLimit p.limit ≤ 1000 := by
  refine ⟨?_, ?_, ?_, ?_, ?_, ?_⟩
  · unfold queryEventsDataBuilder
    rw [applyFilters_split]
  · intro h; simp [queryEventsLimit, if_pos h]
  · intro h
    unfold queryEventsLimit
    rw [if_neg (by omega), if_pos h]
  · intro h1 h2
    unfold queryEventsLimit
    rw [if_neg (by omega), if_neg (by omega)]
  · unfold queryEventsLimit; split_ifs <;> omega
  · unfold queryEventsLimit; split_ifs <;> omega

/-- Witness for C7 at a concrete over-large limit. -/
theorem C7_limit_clamped_witness :
    (2000 : Int) > 1000 ∧ queryEventsLimit 2000 = 1000 :=
  ⟨by decide, (C7_limit_clamped "monitor" { limit := 2000 }).2.2.1 (by decide)⟩

/-- C10: WriteBatch on the empty batch returns nil without any store
interaction, for every store behaviour. -/
theorem C10_write_batch_empty (st : Store) (db : String) :
    writeBatch st db [] = (Except.ok (), ([] : List StoreOp)) := by
  unfold writeBatch
  simp

/-- C2 counterexample: an event whose user_id is non-empty and not a UUID
passes Validate, though the claim requires rejection. -/
theorem C2_counterexample :
    Event.validate { timestamp := 1, service := "s", name := "n", user_id := "xyz" } = none
    ∧ validateSpecOk { timestamp := 1, service := "s", name := "n", user_id := "xyz" } = false := by
  decide

/-- C2 amended: Validate accepts exactly when the timestamp is non-zero,
service and name are non-empty, and job_id, request_id and trace_id, when
non-empty, match the UUID shape; user_id is never checked. A validation
failure leaves the enqueue log untouched and stops the ingest loop at that
line. -/
theorem C2_validate_amended :
    (∀ e : Event, e.validate = none ↔
      (e.timestamp ≠ 0 ∧ e.service ≠ "" ∧ e.name ≠ ""
        ∧ (e.job_id = "" ∨ uuidMatch e.job_id = true)
        ∧ (e.request_id = "" ∨ uuidMatch e.request_id = true)
        ∧ (e.trace_id = "" ∨ uuidMatch e.trace_id = true)))
    ∧ (∀ (parse : String → ParseResult) (rest : List String) (lineNum : Nat)
        (enq : List Event) (count : Nat) (l : String) (e : Event),
        l ≠ "" → parse l = .ok e → e.validate.isSome →
        parseAndEnqueueAux parse (l :: rest) lineNum enq count = (enq, count, some (lineNum + 1))) := by
  constructor
  · intro e
    unfold Event.validate
    split_ifs with h1 h2 h3 h4 h5 h6 <;> (first | (simp_all; done) | (simp_all; tauto))
  · intro parse rest lineNum enq count l e hl hp hv
    obtain ⟨m, hm⟩ := Option.isSome_iff_exists.mp hv
    simp only [parseAndEnqueueAux, if_neg hl, hp, hm]

/-- Witness for C2 amended at a concrete event and a concrete failing
line. -/
theorem C2_validate_amended_witness :
    Event.validate { timestamp := 1, service := "s", name := "n" } = none
    ∧ parseAndEnqueueAux (fun _ => ParseResult.ok { timestamp := 0 }) ["x"] 0 [] 0
        = ([], 0, some 1) :=
  ⟨(C2_validate_amended.1 { timestamp := 1, service := "s", name := "n" }).mpr (by decide),
    C2_validate_amended.2 (fun _ => ParseResult.ok { timestamp := 0 }) [] 0 [] 0 "x"
      { timestamp := 0 } (by decide) rfl (by decide)⟩

/-- Whether one raw line passes the ingest loop without stopping it:
either empty, or decoding to an event that validates. -/
def lineGood (parse : String → ParseResult) (l : String) : Bool :=
  if l = "" then true
  else
    match parse l with
    | .err => false
    | .ok e => e.validate.isNone

/-- The events the ingest loop enqueues from a run of lines. -/
def lineEvents (parse : String → ParseResult) (lines : List String) : List Event :=
  lines.filterMap (fun l =>
    if l = "" then none
    else
      match parse l with
      | .err => none
      | .ok e => if e.validate.isNone then some e else none)

/-- The number of non-empty lines of a body. -/
def countNonEmpty (lines : List String) : Nat := (lines.filter (fun l => l ≠ "")).length

/-- Running the ingest loop over a run of good lines enqueues their events,
counts their non-empty members and advances the line counter. -/
theorem parseAndEnqueueAux_good (parse : String → ParseResult) (pre : List String) :
    (∀ l ∈ pre, lineGood parse l = true) →
    ∀ (rest : List String) (lineNum : Nat) (enq : List Event) (count : Nat),
      parseAndEnqueueAux parse (pre ++ rest) lineNum enq count
        = parseAndEnqueueAux parse rest (lineNum + pre.length)
            (enq ++ lineEvents parse pre) (count + countNonEmpty pre) := by
  induction pre with
  | nil => intro _ rest lineNum enq count; simp [lineEvents, countNonEmpty]
  | cons l pre2 ih =>
    intro hgood rest lineNum enq count
    have hl := hgood l (List.mem_cons_self l pre2)
    have hrest : ∀ x ∈ pre2, lineGood parse x = true :=
      fun x hx => hgood x (List.mem_cons_of_mem l hx)
    by_cases he : l = ""
    · subst he
      simp only [List.cons_append, parseAndEnqueueAux, List.append_eq, if_true]
      rw [ih hrest rest (lineNum + 1) enq count]
      simp [lineEvents, countNonEmpty, Nat.add_assoc, Nat.add_comm 1 pre2.length]
    · unfold lineGood at hl
      rw [if_neg he] at hl
      simp only [List.cons_append, parseAndEnqueueAux, List.append_eq, if_neg he]
      cases hp : parse l with
      | err => simp only [hp] at hl; simp at hl
      | ok e =>
        simp only [hp] at hl
        simp only [hp]
        cases hv : e.validate with
        | some m => simp [hv] at hl
        | none =>
          simp only [hv]
          rw [ih hrest rest (lineNum + 1) (enq ++ [e]) (count + 1)]
          have hev : lineEvents parse (l :: pre2) = e :: lineEvents parse pre2 := by
            simp [lineEvents, he, hp, hv]
          have hcnt : countNonEmpty (l :: pre2) = countNonEmpty pre2 + 1 := by
            simp [countNonEmpty, he, Nat.add_comm]
          rw [hev, hcnt]
          simp [Nat.add_assoc, Nat.add_comm 1 pre2.length, List.append_assoc,
            Nat.add_comm 1 (countNonEmpty pre2)]

/-- A bad non-empty line stops the loop at its own 1-based index without
touching the enqueue log. -/
theorem parseAndEnqueueAux_bad (parse : String → ParseResult) (bad : String)
    (suf : List String) (lineNum : Nat) (enq : List Event) (count : Nat)
    (hne : bad ≠ "") (hbad : lineGood parse bad = false) :
    parseAndEnqueueAux parse (bad :: suf) lineNum enq count = (enq, count, some (lineNum + 1)) := by
  unfold lineGood at hbad
  rw [if_neg hne] at hbad
  simp only [parseAndEnqueueAux, if_neg hne]
  cases hp : parse bad with
  | err => simp only [hp]
  | ok e =>
    simp only [hp] at hbad
    simp only [hp]
    cases hv : e.validate with
    | some m => simp only [hv]
    | none => simp [hv] at hbad

/-- C3: NDJSON lines are consumed in order with empty lines skipped; the
run stops at the first bad line reporting its 1-based index over all lines,
with exactly the valid events of the preceding lines already handed to
Queue.Enqueue and nothing after the bad line examined; a run with no bad
line accepts the number of non-empty lines, all enqueued. -/
theorem C3_ingest_first_error :
    (∀ (parse : String → ParseResult) (pre suf suf2 : List String) (bad : String),
      (∀ l ∈ pre, lineGood parse l = true) → bad ≠ "" → lineGood parse bad = false →
      parseAndEnqueue parse (pre ++ bad :: suf)
        = (lineEvents parse pre, countNonEmpty pre, some (pre.length + 1))
      ∧ parseAndEnqueue parse (pre ++ bad :: suf)
        = parseAndEnqueue parse (pre ++ bad :: suf2)
      ∧ ingestEventsHandler parse (pre ++ bad :: suf)
        = (.badLine (pre.length + 1), lineEvents parse pre))
    ∧ (∀ (parse : String → ParseResult) (lines : List String),
      (∀ l ∈ lines, lineGood parse l = true) →
      parseAndEnqueue parse lines = (lineEvents parse lines, countNonEmpty lines, none)
      ∧ ingestEventsHandler parse lines
        = (.accepted (countNonEmpty lines), lineEvents parse lines)) := by
  constructor
  · intro parse pre suf suf2 bad hpre hne hbad
    have key : ∀ s : List String, parseAndEnqueue parse (pre ++ bad :: s)
        = (lineEvents parse pre, countNonEmpty pre, some (pre.length + 1)) := by
      intro s
      unfold parseAndEnqueue
      rw [parseAndEnqueueAux_good parse pre hpre (bad :: s) 0 [] 0,
        parseAndEnqueueAux_bad parse bad s (0 + pre.length) ([] ++ lineEvents parse pre)
          (0 + countNonEmpty pre) hne hbad]
      simp [Nat.add_comm]
    refine ⟨key suf, (key suf).trans (key suf2).symm, ?_⟩
    unfold ingestEventsHandler
    rw [key suf]
  · intro parse lines hgood
    have key : parseAndEnqueue parse lines
        = (lineEvents parse lines, countNonEmpty lines, none) := by
      unfold parseAndEnqueue
      have h2 := parseAndEnqueueAux_good parse lines hgood [] 0 [] 0
      rw [List.append_nil] at h2
      rw [h2]
      simp [parseAndEnqueueAux]
    refine ⟨key, ?_⟩
    unfold ingestEventsHandler
    rw [key]

/-- A concrete JSON-decoder oracle for the C3 witness. -/
def parseStub : String → ParseResult := fun l =>
  if l = "ok" then .ok { timestamp := 1, service := "s", name := "n" }
  else if l = "bad" then .err
  else .ok { timestamp := 0 }

/-- Witness for C3: two good lines (one empty), a malformed third line, a
never-examined fourth line. -/
theorem C3_ingest_first_error_witness :
    parseAndEnqueue parseStub (["ok", ""] ++ "bad" :: ["ok"])
      = ([{ timestamp := 1, service := "s", name := "n" }], 1, some 3)
    ∧ parseAndEnqueue parseStub (["ok", ""] ++ "bad" :: ["ok"])
      = parseAndEnqueue parseStub (["ok", ""] ++ "bad" :: [])
    ∧ parseAndEnqueue parseStub ["ok", ""]
      = ([{ timestamp := 1, service := "s", name := "n" }], 1, none) := by
  have h1 := C3_ingest_first_error.1 parseStub ["ok", ""] ["ok"] [] "bad"
    (by decide) (by decide) (by decide)
  have h2 := C3_ingest_first_error.2 parseStub ["ok", ""] (by decide)
  exact ⟨by rw [h1.1]; decide, h1.2.1, by rw [h2.1]; decide⟩

/-- Appending rows to an already-allocated slice collects their events in
order. -/
theorem foldl_goAppend (parseJson : String → Option (List (String × String)))
    (rows : List Row) :
    ∀ l : List Event,
      rows.foldl (fun acc r => goAppend acc (rowToEvent parseJson r)) (some l)
        = some (l ++ rows.map (rowToEvent parseJson)) := by
  induction rows with
  | nil => intro l; simp
  | cons r rest ih =>
    intro l
    rw [List.foldl_cons, show goAppend (some l) (rowToEvent parseJson r)
        = some (l ++ [rowToEvent parseJson r]) from rfl,
      ih (l ++ [rowToEvent parseJson r])]
    simp

/-- The scan loop of QueryEvents produces exactly the rehydrated rows (the
nil slice only for no rows). -/
theorem scanEvents_eq (parseJson : String → Option (List (String × String))) :
    ∀ rows : List Row,
      scanEvents parseJson rows
        = match rows with
          | [] => none
          | r :: rest => some (rowToEvent parseJson r :: rest.map (rowToEvent parseJson)) := by
  intro rows
  match rows with
  | [] => rfl
  | r :: rest =>
    unfold scanEvents
    rw [List.foldl_cons, show goAppend none (rowToEvent parseJson r)
        = some [rowToEvent parseJson r] from rfl,
      foldl_goAppend parseJson rest [rowToEvent parseJson r]]
    simp

/-- C8 amended: the events list QueryEvents returns is never the nil slice
(empty when no rows match) and is exactly the rehydrated rows; for a row
whose stored data column is empty or the literal empty object, the
rehydrated data field stays the nil map, which marshals to the JSON null
literal, not to an empty object. -/
theorem C8_events_rehydration_amended :
    (∀ (parseJson : String → Option (List (String × String))) (rows : List Row),
      queryEventsEvents parseJson rows = some (rows.map (rowToEvent parseJson))
      ∧ (queryEventsEvents parseJson rows).isSome = true)
    ∧ (∀ (parseJson : String → Option (List (String × String))) (r : Row),
      r.dataStr = "" ∨ r.dataStr = "\x7b\x7d" →
      (rowToEvent parseJson r).data = none
      ∧ goDataMarshal (rowToEvent parseJson r).data = "null") := by
  constructor
  · intro parseJson rows
    have h : queryEventsEvents parseJson rows = some (rows.map (rowToEvent parseJson)) := by
      unfold queryEventsEvents
      rw [scanEvents_eq parseJson rows]
      match rows with
      | [] => rfl
      | r :: rest => rfl
    exact ⟨h, by rw [h]; rfl⟩
  · intro parseJson r hr
    have h : (rowToEvent parseJson r).data = none := by
      unfold rowToEvent
      rcases hr with h | h <;> simp [h]
    exact ⟨h, by rw [h]; rfl⟩

/-- Witness for C8 at one row with an empty data column and a decoder that
would return a non-empty map if consulted. -/
theorem C8_events_rehydration_amended_witness :
    queryEventsEvents (fun _ => some [("k", "1")]) [{ dataStr := "" }]
      = some [rowToEvent (fun _ => some [("k", "1")]) { dataStr := "" }]
    ∧ (rowToEvent (fun _ => some [("k", "1")]) { dataStr := "" }).data = none :=
  ⟨by
    have h := (C8_events_rehydration_amended.1 (fun _ => some [("k", "1")])
      [{ dataStr := "" }]).1
    simpa using h,
    (C8_events_rehydration_amended.2 (fun _ => some [("k", "1")]) { dataStr := "" }
      (Or.inl rfl)).1⟩

/-- C8 counterexample: a row whose data column is the empty string
rehydrates to the nil map, which serializes to null, not to the empty
object the claim states. -/
theorem C8_counterexample :
    (rowToEvent (fun _ => some [("k", "1")]) { dataStr := "" }).data = none
    ∧ goDataMarshal (rowToEvent (fun _ => some [("k", "1")]) { dataStr := "" }).data = "null"
    ∧ ("null" : String) ≠ "\x7b\x7d" := by
  refine ⟨rfl, rfl, by decide⟩

/-- C9: the next link exists exactly when the effective limit advances the
offset to before the total; the previous link exists exactly for a positive
offset, its offset clamped below at zero; both links overwrite only the
offset and limit parameters and preserve every other query parameter; the
limit written into the links is the requested one, defaulting to 100 when
non-positive. -/
theorem C9_pagination_links (q : QVals) (limit offset total : Int) :
    ((buildPaginationURLs q limit offset total).1.isSome
      ↔ offset + (if limit ≤ 0 then 100 else limit) < total)
    ∧ ((buildPaginationURLs q limit offset total).2.isSome ↔ 0 < offset)
    ∧ (∀ qn, (buildPaginationURLs q limit offset total).1 = some qn →
        qn "offset" = [toString (offset + (if limit ≤ 0 then 100 else limit))]
        ∧ qn "limit" = [toString (if limit ≤ 0 then 100 else limit)]
        ∧ ∀ k, k ≠ "offset" → k ≠ "limit" → qn k = q k)
    ∧ (∀ qp, (buildPaginationURLs q limit offset total).2 = some qp →
        qp "offset" = [toString (max 0 (offset - (if limit ≤ 0 then 100 else limit)))]
        ∧ qp "limit" = [toString (if limit ≤ 0 then 100 else limit)]
        ∧ ∀ k, k ≠ "offset" → k ≠ "limit" → qp k = q k) := by
  have hmax : (if offset - (if limit ≤ 0 then 100 else limit) < 0 then 0
      else offset - (if limit ≤ 0 then 100 else limit))
      = max 0 (offset - (if limit ≤ 0 then 100 else limit)) := by
    split_ifs <;> omega
  refine ⟨?_, ?_, ?_, ?_⟩
  · simp only [buildPaginationURLs]
    by_cases hn : offset + (if limit ≤ 0 then 100 else limit) < total <;> simp [hn]
  · simp only [buildPaginationURLs]
    by_cases hn : offset + (if limit ≤ 0 then 100 else limit) < total <;>
      by_cases hp : offset > 0 <;> simp [hn, hp]
  · intro qn hqn
    simp only [buildPaginationURLs] at hqn
    by_cases hn : offset + (if limit ≤ 0 then 100 else limit) < total
    · simp only [if_pos hn, Option.some.injEq] at hqn
      subst hqn
      refine ⟨by simp [qset], by simp [qset], ?_⟩
      intro k hk1 hk2
      simp [qset, hk1, hk2]
    · simp [if_neg hn] at hqn
  · intro qp hqp
    simp only [buildPaginationURLs] at hqp
    by_cases hp : offset > 0
    · rw [hmax] at hqp
      by_cases hn : offset + (if limit ≤ 0 then 100 else limit) < total <;>
        · simp only [if_pos, if_neg, hn, hp, if_true, if_false, Option.some.injEq] at hqp
          subst hqp
          refine ⟨by simp [qset], by simp [qset], ?_⟩
          intro k hk1 hk2
          simp [qset, hk1, hk2]
    · simp [hp] at hqp

/-- A concrete query map for the C9 witness. -/
def c9q : QVals := fun k => if k = "service" then ["api"] else []

/-- The next-link query map buildPaginationURLs produces for c9q with
limit 10, offset 20, total 100. -/
def c9next : QVals := qset (qset c9q "offset" "30") "limit" "10"

/-- Witness for C9 at a concrete query map, limit 10, offset 20, total
100: the next link exists, carries the overwritten offset and limit, and
preserves the service parameter. -/
theorem C9_pagination_links_witness :
    ((buildPaginationURLs c9q 10 20 100).1.isSome ↔ (20 : Int) + (if (10 : Int) ≤ 0 then 100 else 10) < 100)
    ∧ c9next "offset" = [toString ((20 : Int) + (if (10 : Int) ≤ 0 then 100 else 10))]
    ∧ c9next "limit" = [toString (if (10 : Int) ≤ 0 then 100 else 10)]
    ∧ c9next "service" = c9q "service" :=
  have h := (C9_pagination_links c9q 10 20 100).2.2.1 c9next rfl
  ⟨(C9_pagination_links c9q 10 20 100).1, h.1, h.2.1, h.2.2 "service" (by decide) (by decide)⟩

/-- C5 counterexample: on a key with two double-underscore separators and a
known trailing operator, the code keeps only the first segment as the field
(discarding the middle segment), while the claimed grammar makes the field
everything before the final separator. -/
theorem C5_counterexample :
    parseFilterKey "a__b__gt" = ⟨"a", "gt", false⟩
    ∧ parseFilterKeySpec "a__b__gt" = ⟨"a__b", "gt", false⟩
    ∧ parseFilterKey "a__b__gt" ≠ parseFilterKeySpec "a__b__gt" := by
  decide

/-- Assembly of a filter key from double-underscore separated segments. -/
def joinKey : List String → String
  | [] => ""
  | [s] => s
  | s :: rest => s ++ ("__" ++ joinKey rest)

/-- Splitting a key assembled from segments recovers the segments, when no
segment contains a double underscore and no segment before the last ends in
an underscore. -/
theorem goSplit_join :
    ∀ (mids : List String) (last : String),
      (∀ x ∈ mids, ¬ ('_' :: '_' :: []) <:+: x.data ∧ x.data.getLast? ≠ some '_') →
      ¬ ('_' :: '_' :: []) <:+: last.data →
      goSplit (joinKey (mids ++ [last])) "__" = mids ++ [last] := by
  intro mids
  induction mids with
  | nil =>
    intro last _ hlast
    simpa using goSplit_no_uu last hlast
  | cons m mids2 ih =>
    intro last hmids hlast
    have hm := hmids m (List.mem_cons_self m mids2)
    have hrest : ∀ x ∈ mids2, ¬ ('_' :: '_' :: []) <:+: x.data ∧ x.data.getLast? ≠ some '_' :=
      fun x hx => hmids x (List.mem_cons_of_mem m hx)
    have hshape : joinKey ((m :: mids2) ++ [last]) = m ++ "__" ++ joinKey (mids2 ++ [last]) := by
      cases mids2 with
      | nil => exact (String.append_assoc m "__" last).symm
      | cons y ys => exact (String.append_assoc m "__" (joinKey ((y :: ys) ++ [last]))).symm
    rw [hshape, goSplit_uu m (joinKey (mids2 ++ [last])) hm.1 hm.2, ih last hrest hlast]
    rfl

/-- C5 amended: filter-key parsing strips an optional data. marker; a key
without a double underscore is an eq filter on the whole key; on a key
assembled from double-underscore separated segments whose trailing segment
is a known operator, that operator is selected but the field kept is only
the FIRST segment (all middle segments are discarded); when the trailing
segment is not a known operator the whole stripped key becomes an eq
filter; reserved query keys (from, to, limit, offset, key) never become
filters. Segment keys are stated for segments that contain no double
underscore and (before the last) do not end in an underscore, where the
splitting is unambiguous. -/
theorem C5_filter_key_grammar_amended :
    (∀ k : String, goStartsWith k "data." = false → ¬ ('_' :: '_' :: []) <:+: k.data →
      parseFilterKey k = ⟨k, "eq", false⟩)
    ∧ (∀ k : String, ¬ ('_' :: '_' :: []) <:+: k.data →
      parseFilterKey ("data." ++ k) = ⟨k, "eq", true⟩)
    ∧ (∀ (first : String) (mids : List String) (op : String), op ∈ validOperatorNames →
      (∀ x ∈ first :: mids, ¬ ('_' :: '_' :: []) <:+: x.data ∧ x.data.getLast? ≠ some '_') →
      goStartsWith (joinKey ((first :: mids) ++ [op])) "data." = false →
      parseFilterKey (joinKey ((first :: mids) ++ [op])) = ⟨first, op, false⟩
      ∧ parseFilterKey ("data." ++ joinKey ((first :: mids) ++ [op])) = ⟨first, op, true⟩)
    ∧ (∀ (first : String) (mids : List String) (suf : String), suf ∉ validOperatorNames →
      ¬ ('_' :: '_' :: []) <:+: suf.data →
      (∀ x ∈ first :: mids, ¬ ('_' :: '_' :: []) <:+: x.data ∧ x.data.getLast? ≠ some '_') →
      goStartsWith (joinKey ((first :: mids) ++ [suf])) "data." = false →
      parseFilterKey (joinKey ((first :: mids) ++ [suf]))
        = ⟨joinKey ((first :: mids) ++ [suf]), "eq", false⟩
      ∧ parseFilterKey ("data." ++ joinKey ((first :: mids) ++ [suf]))
        = ⟨joinKey ((first :: mids) ++ [suf]), "eq", true⟩)
    ∧ (∀ (rfc : String → Option Int) (q1 q2 : List (String × List String)) (k : String)
        (vs : List String), reservedParams k = true →
      ((parseQueryParams rfc (q1 ++ (k, vs) :: q2)).1).filters
        = ((parseQueryParams rfc (q1 ++ q2)).1).filters) := by
  have hop : ∀ x ∈ validOperatorNames, ¬ ('_' :: '_' :: []) <:+: x.data := by decide
  refine ⟨?_, ?_, ?_, ?_, ?_⟩
  · intro k h1 h2
    simp [parseFilterKey, h1, goSplit_no_uu k h2]
  · intro k h
    simp [parseFilterKey, goStartsWith_append_self "data." k,
      goTrimLeading_append_self "data." k, goSplit_no_uu k h]
  · intro first mids op hmem hclean hsw
    have hcontains : validOperatorNames.contains op = true := by simpa using hmem
    have hsplit : goSplit (joinKey ((first :: mids) ++ [op])) "__" = (first :: mids) ++ [op] :=
      goSplit_join (first :: mids) op hclean (hop op hmem)
    have hlen : ¬ (((first :: mids) ++ [op]).length = 1) := by simp
    have hhead : ((first :: mids) ++ [op]).headD "" = first := rfl
    have hlast2 : ((first :: mids) ++ [op]).getLastD "" = op :=
      List.getLastD_concat "" op (first :: mids)
    constructor
    · simp only [parseFilterKey]
      rw [hsw]
      simp only [Bool.false_eq_true, if_false]
      rw [hsplit, if_neg hlen, hlast2, hcontains, hhead]
      simp
    · simp only [parseFilterKey]
      rw [goStartsWith_append_self "data." (joinKey ((first :: mids) ++ [op]))]
      simp only [eq_self_iff_true, if_true]
      rw [goTrimLeading_append_self "data." (joinKey ((first :: mids) ++ [op]))]
      rw [hsplit, if_neg hlen, hlast2, hcontains, hhead]
      simp
  · intro first mids suf hmem hs1 hclean hsw
    have hnc : validOperatorNames.contains suf = false := by simpa using hmem
    have hsplit : goSplit (joinKey ((first :: mids) ++ [suf])) "__" = (first :: mids) ++ [suf] :=
      goSplit_join (first :: mids) suf hclean hs1
    have hlen : ¬ (((first :: mids) ++ [suf]).length = 1) := by simp
    have hlast2 : ((first :: mids) ++ [suf]).getLastD "" = suf :=
      List.getLastD_concat "" suf (first :: mids)
    constructor
    · simp only [parseFilterKey]
      rw [hsw]
      simp only [Bool.false_eq_true, if_false]
      rw [hsplit, if_neg hlen, hlast2, hnc]
      simp
    · simp only [parseFilterKey]
      rw [goStartsWith_append_self "data." (joinKey ((first :: mids) ++ [suf]))]
      simp only [eq_self_iff_true, if_true]
      rw [goTrimLeading_append_self "data." (joinKey ((first :: mids) ++ [suf]))]
      rw [hsplit, if_neg hlen, hlast2, hnc]
      simp
  · intro rfc q1 q2 k vs hk
    simp [parseQueryParams, List.filterMap_append, List.filterMap_cons, hk]

/-- Witness for C5 amended: a three-segment key with a known trailing
operator (the counterexample shape), its data-prefixed form, and a
reserved key contributing no filter. -/
theorem C5_filter_key_grammar_amended_witness :
    parseFilterKey (joinKey ["a", "b", "gt"]) = ⟨"a", "gt", false⟩
    ∧ parseFilterKey ("data." ++ joinKey ["a", "b", "gt"]) = ⟨"a", "gt", true⟩
    ∧ ((parseQueryParams (fun _ => none) ([] ++ ("limit", ["50"]) :: [("service", ["api"])])).1).filters
      = ((parseQueryParams (fun _ => none) ([] ++ [("service", ["api"])])).1).filters :=
  have h := C5_filter_key_grammar_amended.2.2.1 "a" ["b"] "gt" (by decide) (by decide) (by decide)
  ⟨h.1, h.2,
    C5_filter_key_grammar_amended.2.2.2.2 (fun _ => none) [] [("service", ["api"])] "limit"
      ["50"] (by decide)⟩

/-- Left-empty append is definitional on strings. -/
theorem strEmptyAppend (s : String) : "" ++ s = s := rfl

/-- Assembly shape of the GetDataValues SQL text: squirrel emits the Suffix
part (the HAVING text) after ORDER BY and LIMIT. -/
theorem c6SqlShape (d w : String) :
    (("SELECT " ++ ", ".intercalate ["DISTINCT JSONExtractString(data, ?) AS value"] ++ " FROM "
          ++ eventsTable d ++ w)
        ++ (if (["value"] : List String).isEmpty = true then ""
            else " ORDER BY " ++ ", ".intercalate ["value"]))
      ++ (" LIMIT " ++ toString 1000) ++ ""
      ++ (if (["HAVING value != \x27\x27"] : List String).isEmpty = true then ""
          else " " ++ " ".intercalate ["HAVING value != \x27\x27"])
    = "SELECT DISTINCT JSONExtractString(data, ?) AS value FROM " ++ d ++ ".events" ++ w
      ++ " ORDER BY value LIMIT 1000 HAVING value != \x27\x27" := by
  rw [show (", ".intercalate ["DISTINCT JSONExtractString(data, ?) AS value"] : String)
      = "DISTINCT JSONExtractString(data, ?) AS value" from rfl]
  rw [show (if (["value"] : List String).isEmpty = true then ""
      else " ORDER BY " ++ ", ".intercalate ["value"]) = " ORDER BY value" from rfl]
  rw [show (if (["HAVING value != \x27\x27"] : List String).isEmpty = true then ""
      else " " ++ " ".intercalate ["HAVING value != \x27\x27"])
      = " HAVING value != \x27\x27" from rfl]
  rw [show (" LIMIT " ++ toString 1000 : String) = " LIMIT 1000" from rfl]
  unfold eventsTable
  simp only [String.append_assoc, strEmptyAppend]
  rw [show (" ORDER BY value" ++ (" LIMIT 1000" ++ " HAVING value != \x27\x27") : String)
      = " ORDER BY value LIMIT 1000 HAVING value != \x27\x27" from rfl]
  rw [show ∀ x : String, "SELECT " ++ ("DISTINCT JSONExtractString(data, ?) AS value"
        ++ (" FROM " ++ x))
      = "SELECT DISTINCT JSONExtractString(data, ?) AS value FROM " ++ x from
    fun x => by rw [← String.append_assoc, ← String.append_assoc]; rfl]

/-- C6 amended: GetDataValues rejects an empty key; for a non-empty key the
compiled SQL is the DISTINCT JSONExtractString selection with the WHERE
conditions of the filters, ORDER BY value, LIMIT 1000 and then the HAVING
clause appended at the very end (after LIMIT, where squirrel places Suffix
text), with the key bound as the first positional parameter ahead of all
filter parameters. -/
theorem C6_data_values_amended :
    (∀ (db : String) (p : QueryParams), getDataValuesBuild db "" p = .error "key is required")
    ∧ (∀ (db key : String) (p : QueryParams), key ≠ "" →
        getDataValuesBuild db key p
          = .ok ("SELECT DISTINCT JSONExtractString(data, ?) AS value FROM " ++ db ++ ".events"
                ++ whereSql p ++ " ORDER BY value LIMIT 1000 HAVING value != \x27\x27",
              Value.str key :: whereArgs p)) := by
  constructor
  · intro db p
    unfold getDataValuesBuild
    rfl
  · intro db key p hkey
    unfold getDataValuesBuild
    rw [if_neg hkey, applyFilters_split]
    unfold SelectBuilder.toSql whereSql whereArgs
    simp only [List.nil_append]
    rw [← c6SqlShape db (if (paramsWheres p).isEmpty = true then ""
      else " WHERE " ++ " AND ".intercalate (List.map Prod.fst (paramsWheres p)))]

/-- Witness for C6 amended at a concrete database, key and empty filter
set. -/
theorem C6_data_values_amended_witness :
    ("k" : String) ≠ ""
    ∧ getDataValuesBuild "monitor" "k" {}
      = .ok ("SELECT DISTINCT JSONExtractString(data, ?) AS value FROM " ++ "monitor"
            ++ ".events" ++ whereSql {} ++ " ORDER BY value LIMIT 1000 HAVING value != \x27\x27",
          Value.str "k" :: whereArgs {}) :=
  ⟨by decide, C6_data_values_amended.2 "monitor" "k" {} (by decide)⟩

/-- C6 counterexample: at a concrete key with no filters the compiled SQL
carries the HAVING clause after LIMIT, not before ORDER BY as the claim
states. -/
theorem C6_counterexample :
    getDataValuesBuild "monitor" "k" {}
      = .ok ("SELECT DISTINCT JSONExtractString(data, ?) AS value FROM monitor.events ORDER BY value LIMIT 1000 HAVING value != \x27\x27",
          [Value.str "k"])
    ∧ ("SELECT DISTINCT JSONExtractString(data, ?) AS value FROM monitor.events ORDER BY value LIMIT 1000 HAVING value != \x27\x27"
        : String)
      ≠ "SELECT DISTINCT JSONExtractString(data, ?) AS value FROM monitor.events HAVING value != \x27\x27 ORDER BY value LIMIT 1000" := by
  exact ⟨rfl, by decide⟩
